import Mathlib

/-!
Verification of the covariance/relatedness cross-checking module
(`python/tests/test_covariance.py`).

The module computes a sample-by-sample genetic covariance matrix along
several independent reduction paths and asserts their numerical agreement:

* `naive_genotype_covariance` — mean-centered Gram matrix of the genotype
  matrix (ground truth);
* `genotype_relatedness`, `c_genotype_relatedness` — the same matrix
  obtained through the library's generic site statistic
  `sample_count_stat` applied to per-sample-set allele counts;
* `ts_genetic_relatedness` — the library's native pairwise statistic;
* `naive_tree_covariance` / `check_cov_tree_inputs` — a tree-level
  (branch) covariance with topology preconditions.

Genotype matrices are embedded as `List (List ℕ)` (one inner list per
site, one entry per sample); all arithmetic is over `ℚ`, so the numpy
floating-point computations are represented exactly.  numpy arrays
indexed by a pair of indices are embedded as functions `ℕ → ℕ → ℚ`.
The library's `sample_count_stat` and `genetic_relatedness` are not part
of the given source files and are modelled from the specification (see
their doc comments).
-/

namespace TskitCov

/-- Componentwise addition of two equal-length vectors (numpy `+=` on a
running accumulator). -/
def vecAdd (u v : List ℚ) : List ℚ := List.zipWith (fun a b => a + b) u v

/-- Dot product of two equal-length vectors. -/
def dot (u v : List ℚ) : ℚ := ((u.zip v).map (fun q => q.1 * q.2)).sum

/-- Matrix times its own transpose: `A @ A.T` for a row-list matrix. -/
def matMulT (A : List (List ℚ)) : List (List ℚ) :=
  A.map (fun r => A.map (fun s => dot r s))

/-- Per-site mean across samples: `np.mean(G, axis=1)` applied to one row
of the genotype matrix. -/
def siteMean (row : List ℕ) : ℚ :=
  (row.map (fun g : ℕ => (g : ℚ))).sum / (row.length : ℚ)

/-- The vector `np.mean(G, axis=1)` of all per-site means. -/
def rowMeans (G : List (List ℕ)) : List ℚ := G.map siteMean

/-- Transpose of the genotype matrix, `G.T`, with the number of samples
`n` given explicitly (numpy keeps it in the shape). -/
def genotypeTranspose (n : ℕ) (G : List (List ℕ)) : List (List ℚ) :=
  (List.range n).map (fun a => G.map (fun row => (row.getD a 0 : ℚ)))

/-- Broadcast subtraction `A - v` of a length-`s` vector from every row of
an `n × s` matrix. -/
def subEach (A : List (List ℚ)) (v : List ℚ) : List (List ℚ) :=
  A.map (fun r => (r.zip v).map (fun q => q.1 - q.2))

/-- `naive_genotype_covariance`: given the genotype matrix `G`
(sites × samples) it forms `A = G.T - np.mean(G, axis=1)` and returns
`A @ A.T`.  The sample count `n` is the row length of `G` (carried by the
numpy shape, passed explicitly here). -/
def naive_genotype_covariance (n : ℕ) (G : List (List ℕ)) : List (List ℚ) :=
  matMulT (subEach (genotypeTranspose n G) (rowMeans G))

/-- Entry accessor for a row-list matrix. -/
def entry (M : List (List ℚ)) (i j : ℕ) : ℚ := (M.getD i []).getD j 0

/-- Centered genotype of sample `a` at a site: `G[s][a] - mean(G[s])`.
Used to state the contract of `naive_genotype_covariance`. -/
def cRow (row : List ℕ) (a : ℕ) : ℚ := (row.getD a 0 : ℚ) - siteMean row

/-- Interface model of the library tree object, exactly the fields read by
`check_cov_tree_inputs` and `naive_tree_covariance`: the root list, the
node list, the child count and time of a node, the ordered sample list
and the most-recent-common-ancestor function. -/
structure CovTree where
  roots : List ℕ
  nodes : List ℕ
  numChildren : ℕ → ℕ
  time : ℕ → ℚ
  samples : List ℕ
  mrca : ℕ → ℕ → ℕ

/-- Message raised for a tree whose root count is not one. -/
def rootErrMsg : String := "Trees must have one root"

/-- Message raised for a tree containing a node with exactly one child. -/
def unaryErrMsg : String := "Unary nodes are not supported"

/-- `check_cov_tree_inputs`: rejects a tree whose number of roots is not
exactly one, then rejects a tree containing a unary node. -/
def check_cov_tree_inputs (t : CovTree) : Except String Unit :=
  if t.roots.length ≠ 1 then Except.error rootErrMsg
  else if t.nodes.any (fun u => t.numChildren u == 1) then Except.error unaryErrMsg
  else Except.ok ()

/-- `tree.root`: the unique root (the check guarantees there is one). -/
def treeRoot (t : CovTree) : ℕ := t.roots.headD 0

/-- Single numpy index assignment `M[i, j] = v` on a matrix-as-function. -/
def matSet (M : ℕ → ℕ → ℚ) (i j : ℕ) (v : ℚ) : ℕ → ℕ → ℚ :=
  fun a b => if a = i ∧ b = j then v else M a b

/-- `itertools.combinations_with_replacement(range(n), 2)`: all pairs
`(i, j)` with `i ≤ j < n` in lexicographic order. -/
def pairsCWR (n : ℕ) : List (ℕ × ℕ) :=
  (List.range n).flatMap
    (fun i => ((List.range n).filter (fun j => i ≤ j)).map (fun j => (i, j)))

/-- One iteration of the `naive_tree_covariance` loop: write the
root-to-MRCA distance of the pair to `cov[n1, n2]` and mirror it to
`cov[n2, n1]`. -/
def covUpdate (t : CovTree) (M : ℕ → ℕ → ℚ) (p : ℕ × ℕ) : ℕ → ℕ → ℚ :=
  let v := t.time (treeRoot t) -
    t.time (t.mrca (t.samples.getD p.1 0) (t.samples.getD p.2 0))
  let M1 := matSet M p.1 p.2 v
  matSet M1 p.2 p.1 (M1 p.1 p.2)

/-- `naive_tree_covariance`: after the input check, fill a zero matrix
with the root-to-MRCA distances over all sample pairs `(n1, n2)`,
`n1 ≤ n2`, mirroring each value across the diagonal. -/
def naive_tree_covariance (t : CovTree) : Except String (ℕ → ℕ → ℚ) :=
  match check_cov_tree_inputs t with
  | Except.error e => Except.error e
  | Except.ok _ =>
      Except.ok ((pairsCWR t.samples.length).foldl (covUpdate t) (fun _ _ => (0 : ℚ)))

/-- The singleton sample sets `[[u] for u in ts.samples()]` (samples are
numbered `0, …, n-1`). -/
def singletons (n : ℕ) : List (List ℕ) := (List.range n).map (fun u => [u])

/-- Number of samples of sample-set `s` carrying allele `a` at the site
with genotype row `row`. -/
def alleleCount (s : List ℕ) (row : List ℕ) (a : ℕ) : ℕ :=
  (s.filter (fun u => row.getD u 0 == a)).length

/-- The per-site count vector handed to a summary function: one count of
allele `a` per sample set. -/
def countVector (sets : List (List ℕ)) (row : List ℕ) (a : ℕ) : List ℚ :=
  sets.map (fun s => (alleleCount s row a : ℚ))

/-- Modelled from the spec: the allele universe of a site.  The library
keeps, per site, the ancestral allele (genotype value `0`) together with
the derived alleles carried by mutations; genotype values index into this
list, so the universe is `0, …, max genotype value`. -/
def siteAlleles (row : List ℕ) : List ℕ := List.range (row.foldr max 0 + 1)

/-- Modelled from the spec: the one-site contribution of the library's
site statistic.  The summary function `f` is applied to the count vector
of every allele of the site — every allele except the ancestral one when
`polarised`, every allele including the ancestral one when unpolarised
("`polarised` selecting ancestral/derived symmetry handling") — and the
resulting vectors are accumulated componentwise. -/
def siteStat (sets : List (List ℕ)) (f : List ℚ → List ℚ) (m : ℕ)
    (polarised : Bool) (row : List ℕ) : List ℚ :=
  ((if polarised then (siteAlleles row).filter (fun a => a ≠ 0)
    else siteAlleles row).map
      (fun a => f (countVector sets row a))).foldl vecAdd (List.replicate m 0)

/-- Modelled from the spec: the library method
`TreeSequence.sample_count_stat(sample_sets, f, output_dim, mode="site",
span_normalise=False, polarised, strict)`, which is not among the given
source files.  In site mode without span normalisation it applies `f` to
the per-site allele count vectors of every site and sums the resulting
`output_dim`-length vectors over all sites.  The `strict` flag only
validates `f` and does not change the value. -/
def sample_count_stat (sets : List (List ℕ)) (f : List ℚ → List ℚ) (m : ℕ)
    (polarised : Bool) (G : List (List ℕ)) : List ℚ :=
  (G.map (fun row => siteStat sets f m polarised row)).foldl vecAdd
    (List.replicate m 0)

/-- The running sum `sumx` of `x[0] + … + x[state_dim - 1]` computed by
the loop in the summary function of `c_genotype_relatedness`. -/
def loopSum (sd : ℕ) (x : List ℚ) : ℚ :=
  ((List.range sd).map (fun k => x.getD k 0)).sum

/-- The summary function of `c_genotype_relatedness`: for the `k`-th
index pair `(i, j)` it returns `(x[i] - meanx) * (x[j] - meanx) / 2`
with `meanx = sumx / state_dim`. -/
def c_genotype_relatedness_f (sd : ℕ) (indexes : List (ℕ × ℕ)) (x : List ℚ) :
    List ℚ :=
  let meanx := loopSum sd x / (sd : ℚ)
  indexes.map (fun p => (x.getD p.1 0 - meanx) * (x.getD p.2 0 - meanx) / 2)

/-- `c_genotype_relatedness`: the above summary function run through the
library site statistic, unpolarised, without span normalisation. -/
def c_genotype_relatedness (sets : List (List ℕ)) (indexes : List (ℕ × ℕ))
    (G : List (List ℕ)) : List ℚ :=
  sample_count_stat sets (c_genotype_relatedness_f sets.length indexes)
    indexes.length false G

/-- The summary function of the `genetic_relatedness` reference
implementation: entry `(i, j)` (row-major over all ordered pairs) is
`x[i] * x[j] * (sum(x) != num_samples)`, the boolean factor zeroing the
contribution of a fully derived site. -/
def gr_f (n num_samples : ℕ) (x : List ℚ) : List ℚ :=
  (List.range n).flatMap (fun i => (List.range n).map (fun j =>
    x.getD i 0 * x.getD j 0 * (if x.sum ≠ (num_samples : ℚ) then 1 else 0)))

/-- The summary function of `genotype_relatedness`: entry `(i, j)`
(row-major over all ordered pairs) is
`(x[i] - sum(x)/n) * (x[j] - sum(x)/n)`. -/
def gt_f (n : ℕ) (x : List ℚ) : List ℚ :=
  (List.range n).flatMap (fun i => (List.range n).map (fun j =>
    (x.getD i 0 - x.sum / (n : ℚ)) * (x.getD j 0 - x.sum / (n : ℚ))))

/-- `genotype_relatedness`: its summary function run through the library
site statistic over the singleton sample sets, unpolarised, without span
normalisation; the flat `n*n` result is reshaped to `n × n` and divided
by `2`. -/
def genotype_relatedness (n : ℕ) (G : List (List ℕ)) : List (List ℚ) :=
  let v := sample_count_stat (singletons n) (gt_f n) (n * n) false G
  (List.range n).map (fun i => (List.range n).map (fun j =>
    v.getD (i * n + j) 0 / 2))

/-- Modelled from the spec: the library method
`TreeSequence.genetic_relatedness(sample_sets, indexes, mode="site",
span_normalise=False)`, "a thinner, index-pair-only variant" of
`sample_count_stat`, not among the given source files.  For each
requested index pair `(i, j)` it reduces
`(x[i] - mean(x)) * (x[j] - mean(x))` over the allele count vectors of
all sites, unpolarised (the calling test divides the result by two "to
reflect unpolarised"). -/
def ts_genetic_relatedness (sets : List (List ℕ)) (indexes : List (ℕ × ℕ))
    (G : List (List ℕ)) : List ℚ :=
  sample_count_stat sets (fun x =>
    let meanx := loopSum sets.length x / (sets.length : ℚ)
    indexes.map (fun p => (x.getD p.1 0 - meanx) * (x.getD p.2 0 - meanx)))
    indexes.length false G

/-- The numpy fancy assignment `cov[np.triu_indices(n)] = v` on a zero
matrix: the upper-triangular positions, in the row-major order of
`pairsCWR n`, receive the entries of `v` positionally. -/
def assignUpper (n : ℕ) (v : List ℚ) : ℕ → ℕ → ℚ :=
  ((pairsCWR n).zip v).foldl (fun M pv => matSet M pv.1.1 pv.1.2 pv.2)
    (fun _ _ => (0 : ℚ))

/-- The reflection `M + M.T - np.diag(M.diagonal())` expanding an
upper-triangular matrix to a symmetric one. -/
def reflectUpper (M : ℕ → ℕ → ℚ) : ℕ → ℕ → ℚ :=
  fun i j => M i j + M j i - (if i = j then M i j else 0)

/-- The matrix `cov3` of `TestCovariance.verify`: the native pairwise
statistic over singleton sets and all upper-triangular index pairs,
divided by two, written into the upper triangle and reflected. -/
def verify_cov3 (n : ℕ) (G : List (List ℕ)) : ℕ → ℕ → ℚ :=
  reflectUpper (assignUpper n
    ((ts_genetic_relatedness (singletons n) (pairsCWR n) G).map (fun y => y / 2)))

/-- The matrix `cov4` of `TestCovariance.verify`:
`c_genotype_relatedness` over singleton sets and all upper-triangular
index pairs, written into the upper triangle and reflected. -/
def verify_cov4 (n : ℕ) (G : List (List ℕ)) : ℕ → ℕ → ℚ :=
  reflectUpper (assignUpper n
    (c_genotype_relatedness (singletons n) (pairsCWR n) G))

/-- Indicator (as a rational) that sample `u` carries allele `a` at the
site with genotype row `row`; proof-side shorthand. -/
def cnt (row : List ℕ) (a u : ℕ) : ℚ := if row.getD u 0 = a then 1 else 0

/-- Number of samples among `0, …, n-1` carrying allele `a` at the site
with genotype row `row`; proof-side shorthand. -/
def cntSum (n : ℕ) (row : List ℕ) (a : ℕ) : ℚ :=
  ((List.range n).map (cnt row a)).sum

/-- Mean of the singleton-set count vector of allele `a`; proof-side
shorthand. -/
def cntMean (n : ℕ) (row : List ℕ) (a : ℕ) : ℚ := cntSum n row a / (n : ℚ)

/-- The list of all ordered pairs `(i, j)`, `i, j < n`, in the row-major
order of the double comprehension `for i in range(n) for j in range(n)`. -/
def ordPairs (n : ℕ) : List (ℕ × ℕ) :=
  (List.range n).flatMap (fun i => (List.range n).map (fun j => (i, j)))

/-- A two-root tree used as a concrete test input. -/
def exTreeTwoRoots : CovTree where
  roots := [0, 1]
  nodes := [0, 1]
  numChildren := fun _ => 0
  time := fun _ => 0
  samples := [0, 1]
  mrca := fun _ _ => 0

/-- A rootless tree used as a concrete test input. -/
def exTreeNoRoot : CovTree where
  roots := []
  nodes := [0]
  numChildren := fun _ => 0
  time := fun _ => 0
  samples := [0]
  mrca := fun _ _ => 0

/-- A single-root tree containing a unary node, used as a concrete test
input. -/
def exTreeUnary : CovTree where
  roots := [2]
  nodes := [0, 1, 2]
  numChildren := fun u => if u = 2 then 2 else if u = 1 then 1 else 0
  time := fun u => if u = 2 then 1 else 0
  samples := [0, 1]
  mrca := fun a b => if a = b then a else 2

/-- A valid two-sample cherry (one root, no unary node), used as a
concrete test input. -/
def exTreeOk : CovTree where
  roots := [2]
  nodes := [0, 1, 2]
  numChildren := fun u => if u = 2 then 2 else 0
  time := fun u => if u = 2 then 1 else 0
  samples := [0, 1]
  mrca := fun a b => if a = b then a else 2

/-- The matrix filled by `naive_tree_covariance` on `exTreeOk` (the fold
underlying its `Except.ok` result). -/
def exTreeOkMatrix : ℕ → ℕ → ℚ :=
  (pairsCWR exTreeOk.samples.length).foldl (covUpdate exTreeOk)
    (fun _ _ => (0 : ℚ))

/-! ### Generic list lemmas -/

theorem getD_map_of_lt {α β : Type} (f : α → β) (l : List α) (k : ℕ) (d : β)
    (d0 : α) (h : k < l.length) : (l.map f).getD k d = f (l.getD k d0) := by
  induction l generalizing k with
  | nil => simp at h
  | cons a t ih =>
    cases k with
    | zero => simp
    | succ k =>
      simp only [List.map_cons, List.getD_cons_succ]
      exact ih k (by simpa using h)

theorem getD_range_of_lt (n k : ℕ) (h : k < n) : (List.range n).getD k 0 = k := by
  rw [List.getD_eq_getElem _ _ (by simpa using h)]
  simp

theorem getD_of_le {α : Type} (l : List α) (k : ℕ) (d : α) (h : l.length ≤ k) :
    l.getD k d = d := List.getD_eq_default l d h

theorem sum_map_add {α : Type} (l : List α) (f g : α → ℚ) :
    (l.map (fun x => f x + g x)).sum = (l.map f).sum + (l.map g).sum := by
  induction l with
  | nil => simp
  | cons a t ih => simp only [List.map_cons, List.sum_cons, ih]; ring

theorem sum_map_sub {α : Type} (l : List α) (f g : α → ℚ) :
    (l.map (fun x => f x - g x)).sum = (l.map f).sum - (l.map g).sum := by
  induction l with
  | nil => simp
  | cons a t ih => simp only [List.map_cons, List.sum_cons, ih]; ring

theorem sum_map_const {α : Type} (l : List α) (c : ℚ) :
    (l.map (fun _ => c)).sum = (l.length : ℚ) * c := by
  induction l with
  | nil => simp
  | cons a t ih => simp only [List.map_cons, List.sum_cons, ih, List.length_cons]
                   push_cast
                   ring

theorem zipWith_map_same {α : Type} (h : ℚ → ℚ → ℚ) (f g : α → ℚ) (l : List α) :
    List.zipWith h (l.map f) (l.map g) = l.map (fun x => h (f x) (g x)) := by
  induction l with
  | nil => simp
  | cons a t ih => simp [ih]

theorem dot_map {α : Type} (l : List α) (f g : α → ℚ) :
    dot (l.map f) (l.map g) = (l.map (fun x => f x * g x)).sum := by
  unfold dot
  rw [List.zip_map' f g l, List.map_map]
  rfl

/-! ### Accumulation lemmas for the site statistic -/

theorem foldl_vecAdd_maps {α β : Type} (idxs : List α) (φ : β → α → ℚ) :
    ∀ (vs : List β) (F : α → ℚ),
      ((vs.map (fun b => idxs.map (φ b))).foldl vecAdd (idxs.map F)) =
        idxs.map (fun p => F p + (vs.map (fun b => φ b p)).sum) := by
  intro vs
  induction vs with
  | nil => intro F; simp
  | cons b t ih =>
    intro F
    simp only [List.map_cons, List.foldl_cons]
    have hstep : vecAdd (idxs.map F) (idxs.map (φ b)) =
        idxs.map (fun p => F p + φ b p) := zipWith_map_same _ F (φ b) idxs
    rw [hstep, ih]
    refine congrArg (fun F2 => List.map F2 idxs) (funext (fun p => ?_))
    simp only [List.map_cons, List.sum_cons]
    ring

theorem replicate_eq_map_zero {α : Type} (l : List α) :
    List.replicate l.length (0 : ℚ) = l.map (fun _ => 0) :=
  (List.map_const' l 0).symm

theorem siteStat_map {α : Type} (sets : List (List ℕ)) (idxs : List α)
    (φ : List ℚ → α → ℚ) (row : List ℕ) :
    siteStat sets (fun x => idxs.map (φ x)) idxs.length false row =
      idxs.map (fun p =>
        ((siteAlleles row).map (fun a => φ (countVector sets row a) p)).sum) := by
  trans (idxs.map (fun p =>
    0 + ((siteAlleles row).map (fun a => φ (countVector sets row a) p)).sum))
  · unfold siteStat
    rw [replicate_eq_map_zero idxs]
    exact foldl_vecAdd_maps idxs (fun a p => φ (countVector sets row a) p)
      (siteAlleles row) (fun _ => 0)
  · simp

theorem sample_count_stat_map {α : Type} (sets : List (List ℕ)) (idxs : List α)
    (φ : List ℚ → α → ℚ) (G : List (List ℕ)) :
    sample_count_stat sets (fun x => idxs.map (φ x)) idxs.length false G =
      idxs.map (fun p => (G.map (fun row =>
        ((siteAlleles row).map
          (fun a => φ (countVector sets row a) p)).sum)).sum) := by
  trans (idxs.map (fun p => 0 + (G.map (fun row =>
    ((siteAlleles row).map (fun a => φ (countVector sets row a) p)).sum)).sum))
  · unfold sample_count_stat
    have hrow : G.map
        (fun row => siteStat sets (fun x => idxs.map (φ x)) idxs.length false row) =
        G.map (fun row => idxs.map (fun p =>
          ((siteAlleles row).map (fun a => φ (countVector sets row a) p)).sum)) := by
      have hfn : (fun row =>
          siteStat sets (fun x => idxs.map (φ x)) idxs.length false row) =
          (fun row => idxs.map (fun p =>
            ((siteAlleles row).map (fun a => φ (countVector sets row a) p)).sum)) :=
        funext (fun row => siteStat_map sets idxs φ row)
      rw [hfn]
    rw [hrow, replicate_eq_map_zero idxs]
    exact foldl_vecAdd_maps idxs
      (fun row p =>
        ((siteAlleles row).map (fun a => φ (countVector sets row a) p)).sum)
      G (fun _ => 0)
  · simp

/-! ### Entrywise description of `naive_genotype_covariance` -/

theorem length_centered (n : ℕ) (G : List (List ℕ)) :
    (subEach (genotypeTranspose n G) (rowMeans G)).length = n := by
  simp [subEach, genotypeTranspose]

theorem centered_getD (n : ℕ) (G : List (List ℕ)) (a : ℕ) (ha : a < n) :
    (subEach (genotypeTranspose n G) (rowMeans G)).getD a [] =
      G.map (fun row => cRow row a) := by
  unfold subEach
  rw [getD_map_of_lt _ _ a [] [] (by simpa [genotypeTranspose] using ha)]
  unfold genotypeTranspose rowMeans
  rw [getD_map_of_lt _ _ a [] 0 (by simpa using ha)]
  rw [getD_range_of_lt n a ha]
  rw [List.zip_map' _ _ G, List.map_map]
  rfl

theorem naive_entry (n : ℕ) (G : List (List ℕ)) (a b : ℕ) (ha : a < n)
    (hb : b < n) :
    entry (naive_genotype_covariance n G) a b =
      (G.map (fun row => cRow row a * cRow row b)).sum := by
  unfold entry naive_genotype_covariance matMulT
  rw [getD_map_of_lt _ _ a [] [] (by rw [length_centered]; exact ha)]
  rw [getD_map_of_lt _ _ b 0 [] (by rw [length_centered]; exact hb)]
  rw [centered_getD n G a ha, centered_getD n G b hb, dot_map]

theorem naive_oob_left (n : ℕ) (G : List (List ℕ)) (a b : ℕ) (ha : n ≤ a) :
    entry (naive_genotype_covariance n G) a b = 0 := by
  unfold entry naive_genotype_covariance matMulT
  rw [getD_of_le _ _ [] (by simpa [length_centered] using ha)]
  rfl

theorem naive_oob_right (n : ℕ) (G : List (List ℕ)) (a b : ℕ) (hb : n ≤ b) :
    entry (naive_genotype_covariance n G) a b = 0 := by
  unfold entry naive_genotype_covariance matMulT
  by_cases ha : a < n
  · rw [getD_map_of_lt _ _ a [] [] (by rw [length_centered]; exact ha)]
    exact getD_of_le _ _ 0 (by simpa [length_centered] using hb)
  · rw [getD_of_le _ _ [] (by simpa [length_centered] using not_lt.mp ha)]
    rfl

theorem naive_symm (n : ℕ) (G : List (List ℕ)) (a b : ℕ) :
    entry (naive_genotype_covariance n G) a b =
      entry (naive_genotype_covariance n G) b a := by
  by_cases ha : a < n
  · by_cases hb : b < n
    · rw [naive_entry n G a b ha hb, naive_entry n G b a hb ha]
      exact congrArg List.sum
        (congrArg (fun F2 => List.map F2 G) (funext (fun row => mul_comm _ _)))
    · rw [naive_oob_right n G a b (not_lt.mp hb),
        naive_oob_left n G b a (not_lt.mp hb)]
  · rw [naive_oob_left n G a b (not_lt.mp ha),
      naive_oob_right n G b a (not_lt.mp ha)]

/-! ### Upper-triangle assignment and reflection -/

theorem mem_pairsCWR (n : ℕ) (p : ℕ × ℕ) :
    p ∈ pairsCWR n ↔ p.1 ≤ p.2 ∧ p.2 < n := by
  unfold pairsCWR
  simp only [List.mem_flatMap, List.mem_map, List.mem_filter, List.mem_range,
    decide_eq_true_eq]
  constructor
  · rintro ⟨i, hi, j, ⟨hj, hij⟩, rfl⟩
    exact ⟨hij, hj⟩
  · rintro ⟨h1, h2⟩
    exact ⟨p.1, lt_of_le_of_lt h1 h2, p.2, ⟨h2, h1⟩, rfl⟩

theorem matSet_same (M : ℕ → ℕ → ℚ) (i j : ℕ) (v : ℚ) :
    matSet M i j v i j = v := by
  simp [matSet]

theorem foldl_matSet_mem (ψ : ℕ × ℕ → ℚ) :
    ∀ (ps : List (ℕ × ℕ)) (M0 : ℕ → ℕ → ℚ) (i j : ℕ),
      ((ps.zip (ps.map ψ)).foldl (fun M pv => matSet M pv.1.1 pv.1.2 pv.2) M0) i j
        = if (i, j) ∈ ps then ψ (i, j) else M0 i j := by
  intro ps
  induction ps with
  | nil => intro M0 i j; simp
  | cons p t ih =>
    intro M0 i j
    simp only [List.map_cons, List.zip_cons_cons, List.foldl_cons]
    rw [ih]
    by_cases hmem : (i, j) ∈ t
    · simp [hmem]
    · by_cases hp : (i, j) = p
      · rw [if_neg hmem, if_pos (List.mem_cons.mpr (Or.inl hp)), ← hp]
        exact matSet_same M0 i j (ψ (i, j))
      · have hcond : ¬(i = p.1 ∧ j = p.2) := by
          intro hc
          exact hp (Prod.ext hc.1 hc.2)
        rw [if_neg hmem, if_neg (by simp [List.mem_cons, hp, hmem])]
        simp only [matSet]
        rw [if_neg hcond]

theorem foldl_matSet_keep (ps : List ((ℕ × ℕ) × ℚ)) :
    ∀ (M0 : ℕ → ℕ → ℚ) (i j : ℕ),
      (∀ q ∈ ps, ¬(i = q.1.1 ∧ j = q.1.2)) →
      (ps.foldl (fun M pv => matSet M pv.1.1 pv.1.2 pv.2) M0) i j = M0 i j := by
  induction ps with
  | nil => intro M0 i j _; rfl
  | cons q t ih =>
    intro M0 i j h
    simp only [List.foldl_cons]
    rw [ih _ i j (fun r hr => h r (by simp [hr]))]
    simp only [matSet]
    rw [if_neg (h q (by simp))]

theorem assignUpper_map (n : ℕ) (ψ : ℕ × ℕ → ℚ) (i j : ℕ) (hij : i ≤ j)
    (hj : j < n) : assignUpper n ((pairsCWR n).map ψ) i j = ψ (i, j) := by
  unfold assignUpper
  rw [foldl_matSet_mem]
  rw [if_pos ((mem_pairsCWR n (i, j)).mpr ⟨hij, hj⟩)]

theorem assignUpper_lower (n : ℕ) (v : List ℚ) (i j : ℕ) (hji : j < i) :
    assignUpper n v i j = 0 := by
  unfold assignUpper
  rw [foldl_matSet_keep]
  intro q hq
  have hq1 : q.1 ∈ pairsCWR n := (List.of_mem_zip hq).1
  have hle : q.1.1 ≤ q.1.2 := ((mem_pairsCWR n q.1).mp hq1).1
  rintro ⟨rfl, rfl⟩
  omega

theorem reflectUpper_symm (M : ℕ → ℕ → ℚ) (i j : ℕ) :
    reflectUpper M i j = reflectUpper M j i := by
  unfold reflectUpper
  by_cases h : i = j
  · subst h; ring
  · rw [if_neg h, if_neg (Ne.symm h)]; ring

theorem reflectUpper_keep (M : ℕ → ℕ → ℚ) (i j : ℕ)
    (hlow : ∀ a b, b < a → M a b = 0) (hij : i ≤ j) :
    reflectUpper M i j = M i j := by
  unfold reflectUpper
  by_cases h : i = j
  · subst h; simp
  · rw [if_neg h, hlow j i (lt_of_le_of_ne hij h)]; ring

theorem reflect_assignUpper_map (n : ℕ) (ψ : ℕ × ℕ → ℚ) (i j : ℕ) (hi : i < n)
    (hj : j < n) :
    reflectUpper (assignUpper n ((pairsCWR n).map ψ)) i j =
      if i ≤ j then ψ (i, j) else ψ (j, i) := by
  by_cases hij : i ≤ j
  · rw [if_pos hij,
      reflectUpper_keep _ i j (fun a b hba => assignUpper_lower n _ a b hba) hij,
      assignUpper_map n ψ i j hij hj]
  · have hji : j < i := not_le.mp hij
    rw [if_neg hij, reflectUpper_symm,
      reflectUpper_keep _ j i (fun a b hba => assignUpper_lower n _ a b hba)
        (le_of_lt hji),
      assignUpper_map n ψ j i (le_of_lt hji) hi]

/-! ### Symmetry of the tree-level covariance fill -/

theorem covUpdate_eq (t : CovTree) (M : ℕ → ℕ → ℚ) (p : ℕ × ℕ) :
    covUpdate t M p =
      matSet (matSet M p.1 p.2 (t.time (treeRoot t) -
          t.time (t.mrca (t.samples.getD p.1 0) (t.samples.getD p.2 0))))
        p.2 p.1 (t.time (treeRoot t) -
          t.time (t.mrca (t.samples.getD p.1 0) (t.samples.getD p.2 0))) := by
  simp only [covUpdate, matSet_same]

theorem set2_symm (M : ℕ → ℕ → ℚ) (i j : ℕ) (v : ℚ)
    (hM : ∀ a b, M a b = M b a) (a b : ℕ) :
    matSet (matSet M i j v) j i v a b = matSet (matSet M i j v) j i v b a := by
  unfold matSet
  split_ifs <;> first | rfl | (exact hM a b) | tauto

theorem covUpdate_symm (t : CovTree) (M : ℕ → ℕ → ℚ) (p : ℕ × ℕ)
    (hM : ∀ a b, M a b = M b a) (a b : ℕ) :
    covUpdate t M p a b = covUpdate t M p b a := by
  rw [covUpdate_eq]
  exact set2_symm M p.1 p.2 _ hM a b

theorem foldl_covUpdate_symm (t : CovTree) :
    ∀ (ps : List (ℕ × ℕ)) (M0 : ℕ → ℕ → ℚ),
      (∀ a b, M0 a b = M0 b a) →
      ∀ a b, (ps.foldl (covUpdate t) M0) a b = (ps.foldl (covUpdate t) M0) b a := by
  intro ps
  induction ps with
  | nil => intro M0 h0 a b; exact h0 a b
  | cons p tl ih =>
    intro M0 h0 a b
    simp only [List.foldl_cons]
    exact ih (covUpdate t M0 p) (covUpdate_symm t M0 p h0) a b

/-! ### Count vectors over singleton sample sets -/

theorem singletons_length (n : ℕ) : (singletons n).length = n := by
  simp [singletons]

theorem length_filter_singleton {α : Type} (p : α → Bool) (u : α) :
    (List.filter p [u]).length = if p u = true then 1 else 0 := by
  cases hb : p u <;> simp [List.filter, hb]

theorem alleleCount_singleton (u : ℕ) (row : List ℕ) (a : ℕ) :
    alleleCount [u] row a = if row.getD u 0 = a then 1 else 0 := by
  unfold alleleCount
  rw [length_filter_singleton]
  by_cases h : row.getD u 0 = a
  · rw [if_pos (by simpa using h), if_pos h]
  · rw [if_neg (by simpa using h), if_neg h]

theorem countVector_singletons (n : ℕ) (row : List ℕ) (a : ℕ) :
    countVector (singletons n) row a = (List.range n).map (cnt row a) := by
  unfold countVector singletons
  rw [List.map_map]
  refine congrArg (fun F2 => List.map F2 (List.range n)) (funext (fun u => ?_))
  show ((alleleCount [u] row a : ℕ) : ℚ) = cnt row a u
  rw [alleleCount_singleton]
  unfold cnt
  by_cases h : row.getD u 0 = a <;> simp [h]

theorem getD_countVector (n : ℕ) (row : List ℕ) (a k : ℕ) (hk : k < n) :
    (countVector (singletons n) row a).getD k 0 = cnt row a k := by
  rw [countVector_singletons]
  rw [getD_map_of_lt _ _ k 0 0 (by simpa using hk)]
  rw [getD_range_of_lt n k hk]

theorem getD_map_cast (row : List ℕ) (k : ℕ) :
    (row.map (fun g : ℕ => (g : ℚ))).getD k 0 = ((row.getD k 0 : ℕ) : ℚ) := by
  induction row generalizing k with
  | nil => simp
  | cons a t ih =>
    cases k with
    | zero => simp
    | succ k => simpa using ih k

theorem range_getD_sum (x : List ℚ) :
    ((List.range x.length).map (fun k => x.getD k 0)).sum = x.sum := by
  induction x with
  | nil => simp
  | cons a t ih =>
    rw [List.length_cons, List.range_succ_eq_map, List.map_cons, List.map_map]
    simp only [List.sum_cons, List.getD_cons_zero]
    refine congrArg (fun s => a + s) ?_
    rw [← ih]
    exact congrArg List.sum (List.map_congr_left (fun k _ => rfl))

theorem loopSum_of_length (sd : ℕ) (x : List ℚ) (h : x.length = sd) :
    loopSum sd x = x.sum := by
  unfold loopSum
  rw [← h]
  exact range_getD_sum x

theorem loopSum_countVector (n : ℕ) (row : List ℕ) (a : ℕ) :
    loopSum n (countVector (singletons n) row a) = cntSum n row a := by
  rw [loopSum_of_length n _ (by rw [countVector_singletons]; simp)]
  rw [countVector_singletons]
  rfl

theorem rowQ_range_sum (row : List ℕ) :
    ((List.range row.length).map (fun u => (row.getD u 0 : ℚ))).sum =
      (row.map (fun g : ℕ => (g : ℚ))).sum := by
  induction row with
  | nil => simp
  | cons a t ih =>
    rw [List.length_cons, List.range_succ_eq_map, List.map_cons, List.map_map]
    simp only [List.sum_cons, List.getD_cons_zero, List.map_cons]
    refine congrArg (fun s => (a : ℚ) + s) ?_
    rw [← ih]
    exact congrArg List.sum (List.map_congr_left (fun k _ => rfl))

/-! ### Facts about rows with genotype values in 0 and 1 -/

theorem le_foldr_max (l : List ℕ) (g : ℕ) (h : g ∈ l) : g ≤ l.foldr max 0 := by
  induction l with
  | nil => simp at h
  | cons a t ih =>
    rcases List.mem_cons.mp h with h1 | h2
    · subst h1; simp only [List.foldr_cons]; exact le_max_left _ _
    · simp only [List.foldr_cons]; exact le_trans (ih h2) (le_max_right _ _)

theorem foldr_max_le (l : List ℕ) (c : ℕ) (h : ∀ g ∈ l, g ≤ c) :
    l.foldr max 0 ≤ c := by
  induction l with
  | nil => simp
  | cons a t ih =>
    simp only [List.foldr_cons]
    exact max_le (h a (by simp)) (ih (fun g hg => h g (by simp [hg])))

theorem getD_mem_nat (l : List ℕ) (k : ℕ) (h : k < l.length) : l.getD k 0 ∈ l := by
  rw [List.getD_eq_getElem l 0 h]
  exact List.getElem_mem h

theorem cnt_one (row : List ℕ) (u : ℕ) (hu : u < row.length)
    (h01 : ∀ g ∈ row, g ≤ 1) : cnt row 1 u = (row.getD u 0 : ℚ) := by
  unfold cnt
  have hle : row.getD u 0 ≤ 1 := h01 _ (getD_mem_nat row u hu)
  rcases Nat.le_one_iff_eq_zero_or_eq_one.mp hle with h | h <;> rw [h] <;> norm_num

theorem cnt_zero (row : List ℕ) (u : ℕ) (hu : u < row.length)
    (h01 : ∀ g ∈ row, g ≤ 1) : cnt row 0 u = 1 - (row.getD u 0 : ℚ) := by
  unfold cnt
  have hle : row.getD u 0 ≤ 1 := h01 _ (getD_mem_nat row u hu)
  rcases Nat.le_one_iff_eq_zero_or_eq_one.mp hle with h | h <;> rw [h] <;> norm_num

theorem cntSum_one (n : ℕ) (row : List ℕ) (hlen : row.length = n)
    (h01 : ∀ g ∈ row, g ≤ 1) :
    cntSum n row 1 = (row.map (fun g : ℕ => (g : ℚ))).sum := by
  unfold cntSum
  rw [List.map_congr_left (fun u hu => cnt_one row u
    (by rw [hlen]; exact List.mem_range.mp hu) h01)]
  rw [← hlen]
  exact rowQ_range_sum row

theorem cntSum_zero (n : ℕ) (row : List ℕ) (hlen : row.length = n)
    (h01 : ∀ g ∈ row, g ≤ 1) :
    cntSum n row 0 = (n : ℚ) - (row.map (fun g : ℕ => (g : ℚ))).sum := by
  unfold cntSum
  rw [List.map_congr_left (fun u hu => cnt_zero row u
    (by rw [hlen]; exact List.mem_range.mp hu) h01)]
  rw [sum_map_sub, sum_map_const, List.length_range, mul_one]
  rw [List.map_congr_left (fun u _ => rfl), ← hlen, rowQ_range_sum row]

theorem siteMean_eq (n : ℕ) (row : List ℕ) (hlen : row.length = n) :
    siteMean row = (row.map (fun g : ℕ => (g : ℚ))).sum / (n : ℚ) := by
  unfold siteMean
  rw [hlen]

theorem sum_map_div {α : Type} (l : List α) (f : α → ℚ) (c : ℚ) :
    (l.map (fun a => f a / c)).sum = (l.map f).sum / c := by
  induction l with
  | nil => simp
  | cons a t ih => simp only [List.map_cons, List.sum_cons, ih]; ring

theorem sum_map_mul_left {α : Type} (l : List α) (f : α → ℚ) (c : ℚ) :
    (l.map (fun a => c * f a)).sum = c * (l.map f).sum := by
  induction l with
  | nil => simp
  | cons a t ih => simp only [List.map_cons, List.sum_cons, ih]; ring

/-- Core identity: at a site whose genotypes are all 0 or 1, the
unpolarised sum over the allele universe of the centered count products
is twice the centered genotype product. -/
theorem site_allele_sum (n : ℕ) (row : List ℕ) (hlen : row.length = n)
    (h01 : ∀ g ∈ row, g ≤ 1) (hn : 0 < n) (i j : ℕ) (hi : i < n) (hj : j < n) :
    ((siteAlleles row).map (fun a =>
      (cnt row a i - cntMean n row a) * (cnt row a j - cntMean n row a))).sum =
      2 * (cRow row i * cRow row j) := by
  have hn' : (n : ℚ) ≠ 0 := Nat.cast_ne_zero.mpr (Nat.pos_iff_ne_zero.mp hn)
  have hmax : row.foldr max 0 ≤ 1 := foldr_max_le row 1 h01
  unfold siteAlleles
  rcases Nat.le_one_iff_eq_zero_or_eq_one.mp hmax with hm | hm
  · -- every genotype at the site is 0
    have hz : ∀ u, u < row.length → row.getD u 0 = 0 := by
      intro u hu
      have h1 := le_foldr_max row _ (getD_mem_nat row u hu)
      omega
    have hz2 : ∀ g ∈ row, g = 0 := by
      intro g hg
      have h1 := le_foldr_max row g hg
      omega
    have hs0 : (row.map (fun g : ℕ => (g : ℚ))).sum = 0 := by
      apply List.sum_eq_zero
      intro x hx
      rcases List.mem_map.mp hx with ⟨g, hg, hxe⟩
      rw [← hxe, hz2 g hg]
      exact Nat.cast_zero
    have hcnt : ∀ u, u < n → cnt row 0 u = 1 := by
      intro u hu
      unfold cnt
      rw [if_pos (hz u (by omega))]
    have hsum0 : cntSum n row 0 = (n : ℚ) := by
      unfold cntSum
      rw [List.map_congr_left (fun u hu => hcnt u (List.mem_range.mp hu))]
      rw [sum_map_const, List.length_range, mul_one]
    rw [hm]
    show ((List.range 1).map _).sum = _
    have hr1 : List.range 1 = [0] := rfl
    rw [hr1]
    simp only [List.map_cons, List.map_nil, List.sum_cons, List.sum_nil]
    rw [hcnt i hi, hcnt j hj]
    unfold cntMean
    rw [hsum0]
    unfold cRow
    rw [siteMean_eq n row hlen, hs0]
    rw [hz i (by omega), hz j (by omega)]
    field_simp
  · -- the site is biallelic with genotypes 0 and 1
    rw [hm]
    have hr2 : List.range 2 = [0, 1] := rfl
    rw [hr2]
    simp only [List.map_cons, List.map_nil, List.sum_cons, List.sum_nil]
    rw [cnt_one row i (by omega) h01, cnt_one row j (by omega) h01]
    rw [cnt_zero row i (by omega) h01, cnt_zero row j (by omega) h01]
    unfold cntMean
    rw [cntSum_one n row hlen h01, cntSum_zero n row hlen h01]
    unfold cRow
    rw [siteMean_eq n row hlen]
    field_simp
    ring

/-! ### Row-major positional lemmas for the flat pair lists -/

theorem flatMap_blocks_length {β : Type} (M n : ℕ) (g : ℕ → ℕ → β) :
    ((List.range M).flatMap (fun i => (List.range n).map (g i))).length = M * n := by
  induction M with
  | zero => simp
  | succ M ih =>
    rw [List.range_succ, List.flatMap_append, List.length_append, ih]
    simp [Nat.succ_mul]

theorem flatMap_blocks_getD {β : Type} (n : ℕ) (g : ℕ → ℕ → β) (d : β) :
    ∀ (M i j : ℕ), i < M → j < n →
      ((List.range M).flatMap (fun i => (List.range n).map (g i))).getD
        (i * n + j) d = g i j := by
  intro M
  induction M with
  | zero => intro i j hi _; exact absurd hi (Nat.not_lt_zero i)
  | succ M ih =>
    intro i j hi hj
    rw [List.range_succ, List.flatMap_append]
    by_cases hiM : i < M
    · rw [List.getD_append _ _ d _ ?hbound]
      · exact ih i j hiM hj
      case hbound =>
        rw [flatMap_blocks_length]
        have h1 : i * n + j < (i + 1) * n := by
          rw [Nat.succ_mul]
          omega
        exact lt_of_lt_of_le h1 (Nat.mul_le_mul_right n hiM)
    · have hieq : i = M := by omega
      subst hieq
      rw [List.getD_append_right _ _ d _ ?hge]
      · rw [flatMap_blocks_length]
        have hj2 : i * n + j - i * n = j := by omega
        rw [hj2]
        simp only [List.flatMap_cons, List.flatMap_nil, List.append_nil]
        rw [getD_map_of_lt _ _ j d 0 (by simpa using hj), getD_range_of_lt n j hj]
      case hge =>
        rw [flatMap_blocks_length]
        exact Nat.le_add_right _ _

theorem ordPairs_length (n : ℕ) : (ordPairs n).length = n * n := by
  unfold ordPairs
  exact flatMap_blocks_length n n (fun i j => (i, j))

theorem map_ordPairs {β : Type} (n : ℕ) (ψ : ℕ × ℕ → β) :
    (ordPairs n).map ψ =
      (List.range n).flatMap (fun i => (List.range n).map (fun j => ψ (i, j))) := by
  unfold ordPairs
  rw [List.map_flatMap]
  refine congrArg (fun F => (List.range n).flatMap F) (funext (fun i => ?_))
  rw [List.map_map]
  rfl

theorem gt_f_eq (n : ℕ) :
    gt_f n = fun x => (ordPairs n).map (fun p =>
      (x.getD p.1 0 - x.sum / (n : ℚ)) * (x.getD p.2 0 - x.sum / (n : ℚ))) := by
  funext x
  exact (map_ordPairs n (fun p =>
    (x.getD p.1 0 - x.sum / (n : ℚ)) * (x.getD p.2 0 - x.sum / (n : ℚ)))).symm

theorem sum_countVector (n : ℕ) (row : List ℕ) (a : ℕ) :
    (countVector (singletons n) row a).sum = cntSum n row a := by
  rw [countVector_singletons]
  rfl

/-! ### Closed forms of the three statistic reduction paths -/

theorem c_relatedness_eq (n : ℕ) (G : List (List ℕ))
    (hlen : ∀ row ∈ G, row.length = n) (h01 : ∀ row ∈ G, ∀ g ∈ row, g ≤ 1)
    (hn : 0 < n) (idxs : List (ℕ × ℕ))
    (hidx : ∀ p ∈ idxs, p.1 < n ∧ p.2 < n) :
    c_genotype_relatedness (singletons n) idxs G =
      idxs.map (fun p => (G.map (fun row => cRow row p.1 * cRow row p.2)).sum) := by
  unfold c_genotype_relatedness
  rw [singletons_length]
  refine Eq.trans (sample_count_stat_map (singletons n) idxs
    (fun x p => (x.getD p.1 0 - loopSum n x / (n : ℚ)) *
      (x.getD p.2 0 - loopSum n x / (n : ℚ)) / 2) G) ?_
  refine List.map_congr_left (fun p hp => ?_)
  obtain ⟨hp1, hp2⟩ := hidx p hp
  refine congrArg List.sum (List.map_congr_left (fun row hrow => ?_))
  have hstep : ∀ a ∈ siteAlleles row,
      ((countVector (singletons n) row a).getD p.1 0 -
          loopSum n (countVector (singletons n) row a) / (n : ℚ)) *
        ((countVector (singletons n) row a).getD p.2 0 -
          loopSum n (countVector (singletons n) row a) / (n : ℚ)) / 2 =
      (cnt row a p.1 - cntMean n row a) * (cnt row a p.2 - cntMean n row a) / 2 := by
    intro a _
    rw [getD_countVector n row a p.1 hp1, getD_countVector n row a p.2 hp2,
      loopSum_countVector]
    rfl
  rw [List.map_congr_left hstep, sum_map_div,
    site_allele_sum n row (hlen row hrow) (h01 row hrow) hn p.1 p.2 hp1 hp2]
  ring

theorem ts_relatedness_eq (n : ℕ) (G : List (List ℕ))
    (hlen : ∀ row ∈ G, row.length = n) (h01 : ∀ row ∈ G, ∀ g ∈ row, g ≤ 1)
    (hn : 0 < n) (idxs : List (ℕ × ℕ))
    (hidx : ∀ p ∈ idxs, p.1 < n ∧ p.2 < n) :
    ts_genetic_relatedness (singletons n) idxs G =
      idxs.map (fun p =>
        2 * (G.map (fun row => cRow row p.1 * cRow row p.2)).sum) := by
  unfold ts_genetic_relatedness
  rw [singletons_length]
  refine Eq.trans (sample_count_stat_map (singletons n) idxs
    (fun x p => (x.getD p.1 0 - loopSum n x / (n : ℚ)) *
      (x.getD p.2 0 - loopSum n x / (n : ℚ))) G) ?_
  refine List.map_congr_left (fun p hp => ?_)
  obtain ⟨hp1, hp2⟩ := hidx p hp
  have hrow : ∀ row ∈ G,
      ((siteAlleles row).map (fun a =>
        ((countVector (singletons n) row a).getD p.1 0 -
            loopSum n (countVector (singletons n) row a) / (n : ℚ)) *
          ((countVector (singletons n) row a).getD p.2 0 -
            loopSum n (countVector (singletons n) row a) / (n : ℚ)))).sum =
      2 * (cRow row p.1 * cRow row p.2) := by
    intro row hrow
    have hstep : ∀ a ∈ siteAlleles row,
        ((countVector (singletons n) row a).getD p.1 0 -
            loopSum n (countVector (singletons n) row a) / (n : ℚ)) *
          ((countVector (singletons n) row a).getD p.2 0 -
            loopSum n (countVector (singletons n) row a) / (n : ℚ)) =
        (cnt row a p.1 - cntMean n row a) * (cnt row a p.2 - cntMean n row a) := by
      intro a _
      rw [getD_countVector n row a p.1 hp1, getD_countVector n row a p.2 hp2,
        loopSum_countVector]
      rfl
    rw [List.map_congr_left hstep,
      site_allele_sum n row (hlen row hrow) (h01 row hrow) hn p.1 p.2 hp1 hp2]
  rw [List.map_congr_left hrow, sum_map_mul_left]

theorem genotype_relatedness_entry (n : ℕ) (G : List (List ℕ))
    (hlen : ∀ row ∈ G, row.length = n) (h01 : ∀ row ∈ G, ∀ g ∈ row, g ≤ 1)
    (hn : 0 < n) (i j : ℕ) (hi : i < n) (hj : j < n) :
    entry (genotype_relatedness n G) i j =
      (G.map (fun row => cRow row i * cRow row j)).sum := by
  unfold entry genotype_relatedness
  rw [getD_map_of_lt _ _ i [] 0 (by simpa using hi)]
  rw [getD_range_of_lt n i hi]
  rw [getD_map_of_lt _ _ j 0 0 (by simpa using hj)]
  rw [getD_range_of_lt n j hj]
  have hv : sample_count_stat (singletons n) (gt_f n) (n * n) false G =
      (ordPairs n).map (fun p => (G.map (fun row =>
        ((siteAlleles row).map (fun a =>
          ((countVector (singletons n) row a).getD p.1 0 -
              (countVector (singletons n) row a).sum / (n : ℚ)) *
            ((countVector (singletons n) row a).getD p.2 0 -
              (countVector (singletons n) row a).sum / (n : ℚ)))).sum)).sum) := by
    rw [gt_f_eq n, ← ordPairs_length n]
    exact sample_count_stat_map (singletons n) (ordPairs n)
      (fun x p => (x.getD p.1 0 - x.sum / (n : ℚ)) *
        (x.getD p.2 0 - x.sum / (n : ℚ))) G
  rw [hv]
  rw [map_ordPairs n _]
  rw [flatMap_blocks_getD n _ 0 n i j hi hj]
  have hrow : ∀ row ∈ G,
      ((siteAlleles row).map (fun a =>
        ((countVector (singletons n) row a).getD i 0 -
            (countVector (singletons n) row a).sum / (n : ℚ)) *
          ((countVector (singletons n) row a).getD j 0 -
            (countVector (singletons n) row a).sum / (n : ℚ)))).sum =
      2 * (cRow row i * cRow row j) := by
    intro row hrow
    have hstep : ∀ a ∈ siteAlleles row,
        ((countVector (singletons n) row a).getD i 0 -
            (countVector (singletons n) row a).sum / (n : ℚ)) *
          ((countVector (singletons n) row a).getD j 0 -
            (countVector (singletons n) row a).sum / (n : ℚ)) =
        (cnt row a i - cntMean n row a) * (cnt row a j - cntMean n row a) := by
      intro a _
      rw [getD_countVector n row a i hi, getD_countVector n row a j hj,
        sum_countVector]
      rfl
    rw [List.map_congr_left hstep,
      site_allele_sum n row (hlen row hrow) (h01 row hrow) hn i j hi hj]
  rw [List.map_congr_left hrow, sum_map_mul_left]
  ring

/-! ### Behaviour of the topology check -/

theorem check_root_error (t : CovTree) (h : t.roots.length ≠ 1) :
    check_cov_tree_inputs t = Except.error rootErrMsg := by
  unfold check_cov_tree_inputs
  rw [if_pos h]

theorem check_unary_error (t : CovTree) (h1 : t.roots.length = 1)
    (h2 : ∃ u ∈ t.nodes, t.numChildren u = 1) :
    check_cov_tree_inputs t = Except.error unaryErrMsg := by
  unfold check_cov_tree_inputs
  rw [if_neg (by omega)]
  rw [if_pos ?hany]
  case hany =>
    rw [List.any_eq_true]
    obtain ⟨u, hu, hc⟩ := h2
    exact ⟨u, hu, by simpa using hc⟩

theorem naive_tree_covariance_error (t : CovTree) (e : String)
    (h : check_cov_tree_inputs t = Except.error e) :
    naive_tree_covariance t = Except.error e := by
  unfold naive_tree_covariance
  rw [h]

/-! ### Claim theorems -/

/-- C2: a tree with two or more roots, or containing a node with exactly
one child, makes `naive_tree_covariance` fail with a `ValueError` rather
than return a matrix, and each of the two causes has its own descriptive
message (a tree with several roots reports the root message first). -/
theorem C2_tree_precondition_errors (t : CovTree)
    (h : 2 ≤ t.roots.length ∨ ∃ u ∈ t.nodes, t.numChildren u = 1) :
    (∃ msg, naive_tree_covariance t = Except.error msg ∧
      (msg = rootErrMsg ∨ msg = unaryErrMsg)) ∧
    (2 ≤ t.roots.length →
      naive_tree_covariance t = Except.error rootErrMsg) ∧
    (t.roots.length = 1 → (∃ u ∈ t.nodes, t.numChildren u = 1) →
      naive_tree_covariance t = Except.error unaryErrMsg) := by
  refine ⟨?_, ?_, ?_⟩
  · rcases h with hr | hu
    · exact ⟨rootErrMsg,
        naive_tree_covariance_error t _ (check_root_error t (by omega)), Or.inl rfl⟩
    · by_cases h1 : t.roots.length = 1
      · exact ⟨unaryErrMsg,
          naive_tree_covariance_error t _ (check_unary_error t h1 hu), Or.inr rfl⟩
      · exact ⟨rootErrMsg,
          naive_tree_covariance_error t _ (check_root_error t h1), Or.inl rfl⟩
  · intro h2
    exact naive_tree_covariance_error t _ (check_root_error t (by omega))
  · intro h1 h2
    exact naive_tree_covariance_error t _ (check_unary_error t h1 h2)

/-- C2 witness: the concrete two-root tree is rejected with the root
message. -/
theorem C2_witness :
    (2 ≤ exTreeTwoRoots.roots.length) ∧
    naive_tree_covariance exTreeTwoRoots = Except.error rootErrMsg :=
  ⟨by norm_num [exTreeTwoRoots],
    (C2_tree_precondition_errors exTreeTwoRoots
      (Or.inl (by norm_num [exTreeTwoRoots]))).2.1
      (by norm_num [exTreeTwoRoots])⟩

/-- C9: the root-count check demands exactly one root, so a tree with
zero roots (root count other than one, not only two or more) is rejected
with the message of `rootErrMsg`. -/
theorem C9_zero_roots_rejected (t : CovTree) (h : t.roots.length ≠ 1) :
    check_cov_tree_inputs t = Except.error rootErrMsg :=
  check_root_error t h

/-- C9 witness: the concrete rootless tree is rejected with the root
message. -/
theorem C9_witness :
    exTreeNoRoot.roots.length ≠ 1 ∧
    check_cov_tree_inputs exTreeNoRoot = Except.error rootErrMsg :=
  ⟨by norm_num [exTreeNoRoot],
    C9_zero_roots_rejected exTreeNoRoot (by norm_num [exTreeNoRoot])⟩

/-- C3 counterexample: `naive_genotype_covariance` contains no validation
of its input shape; on a genotype matrix with zero sites it returns the
zero matrix instead of raising a `ValueError` (the source function has no
raise statement at all, so the embedding is a total function). -/
theorem C3_counterexample :
    naive_genotype_covariance 2 [] = [[0, 0], [0, 0]] := by
  rfl

/-- C3 (amended): `naive_genotype_covariance` performs no emptiness
check: with zero sites it returns the `n × n` zero matrix, and with zero
samples it returns an empty matrix, rather than raising a `ValueError`. -/
theorem C3_empty_returns_value (n : ℕ) (G : List (List ℕ)) :
    naive_genotype_covariance n [] =
      List.replicate n (List.replicate n 0) ∧
    naive_genotype_covariance 0 G = [] := by
  constructor
  · have hA : subEach (genotypeTranspose n []) (rowMeans []) =
        (List.range n).map (fun _ : ℕ => ([] : List ℚ)) := by
      unfold subEach genotypeTranspose rowMeans
      rw [List.map_nil, List.map_map]
      exact congrArg (fun F => (List.range n).map F) (funext (fun a => rfl))
    unfold naive_genotype_covariance
    rw [hA]
    unfold matMulT
    rw [List.map_map]
    have hrow : ((fun r => ((List.range n).map
          (fun _ : ℕ => ([] : List ℚ))).map (fun s => dot r s)) ∘
            (fun _ : ℕ => ([] : List ℚ))) =
        fun _ : ℕ => (List.range n).map (fun _ : ℕ => (0 : ℚ)) := by
      funext a
      show ((List.range n).map (fun _ : ℕ => ([] : List ℚ))).map
        (fun s => dot [] s) = _
      rw [List.map_map]
      rfl
    rw [hrow]
    simp [List.map_const', List.length_range]
  · rfl

/-- C4: on a count vector over `sd` sample sets, the summary function of
`c_genotype_relatedness` returns a vector of the length of the index
list whose `k`-th entry is `(x[i] - mean(x)) * (x[j] - mean(x)) / 2` for
the `k`-th index pair `(i, j)`, with `mean(x) = sum(x) / sd`. -/
theorem C4_c_summary_function (sd : ℕ) (idxs : List (ℕ × ℕ)) (x : List ℚ)
    (hx : x.length = sd) :
    (c_genotype_relatedness_f sd idxs x).length = idxs.length ∧
    ∀ k, k < idxs.length →
      (c_genotype_relatedness_f sd idxs x).getD k 0 =
        (x.getD (idxs.getD k (0, 0)).1 0 - x.sum / (sd : ℚ)) *
          (x.getD (idxs.getD k (0, 0)).2 0 - x.sum / (sd : ℚ)) / 2 := by
  constructor
  · unfold c_genotype_relatedness_f
    simp
  · intro k hk
    unfold c_genotype_relatedness_f
    rw [getD_map_of_lt _ _ k 0 (0, 0) (by simpa using hk)]
    rw [loopSum_of_length sd x hx]

/-- C4 witness: at `x = [1, 3]` with one index pair `(0, 1)` the summary
function returns `[(1 - 2) * (3 - 2) / 2]`. -/
theorem C4_witness :
    (([1, 3] : List ℚ).length = 2) ∧
    ((c_genotype_relatedness_f 2 [(0, 1)] [1, 3]).length = 1 ∧
      ∀ k, k < 1 →
        (c_genotype_relatedness_f 2 [(0, 1)] [1, 3]).getD k 0 =
          (([1, 3] : List ℚ).getD ([((0:ℕ), (1:ℕ))].getD k (0, 0)).1 0 -
              ([1, 3] : List ℚ).sum / (2 : ℚ)) *
            (([1, 3] : List ℚ).getD ([((0:ℕ), (1:ℕ))].getD k (0, 0)).2 0 -
              ([1, 3] : List ℚ).sum / (2 : ℚ)) / 2) :=
  ⟨rfl, C4_c_summary_function 2 [(0, 1)] [1, 3] rfl⟩

/-- C5: `naive_genotype_covariance` is the `n × n` matrix `A Aᵀ` of the
per-site mean-centered genotypes: entry `(a, b)` is the sum over sites of
`(G[s][a] - mean(G[s])) * (G[s][b] - mean(G[s]))`, with no division by
the number of sites. -/
theorem C5_genotype_covariance_contract (n : ℕ) (G : List (List ℕ))
    (a b : ℕ) (ha : a < n) (hb : b < n) :
    (naive_genotype_covariance n G).length = n ∧
    entry (naive_genotype_covariance n G) a b =
      (G.map (fun row => cRow row a * cRow row b)).sum := by
  constructor
  · unfold naive_genotype_covariance matMulT
    rw [List.length_map]
    exact length_centered n G
  · exact naive_entry n G a b ha hb

/-- C5 witness: the contract instantiated at the one-site matrix
`[[0, 1]]` with two samples. -/
theorem C5_witness :
    ((0 : ℕ) < 2 ∧ (1 : ℕ) < 2) ∧
    ((naive_genotype_covariance 2 [[0, 1]]).length = 2 ∧
      entry (naive_genotype_covariance 2 [[0, 1]]) 0 1 =
        ([[0, 1]].map (fun row => cRow row 0 * cRow row 1)).sum) :=
  ⟨by norm_num,
    C5_genotype_covariance_contract 2 [[0, 1]] 0 1 (by norm_num) (by norm_num)⟩

/-- C6: the summary function of the `genetic_relatedness` reference
returns the all-zero vector on a fully derived site
(`sum(x) = num_samples`), and otherwise its row-major entry `(i, j)` is
`x[i] * x[j]`. -/
theorem C6_fully_derived_guard (n ns : ℕ) (x : List ℚ) (hx : x.length = n) :
    (x.sum = (ns : ℚ) → gr_f n ns x = List.replicate (n * n) 0) ∧
    (x.sum ≠ (ns : ℚ) → ∀ i j, i < n → j < n →
      (gr_f n ns x).getD (i * n + j) 0 = x.getD i 0 * x.getD j 0) := by
  constructor
  · intro hsum
    unfold gr_f
    have hif : (if x.sum ≠ (ns : ℚ) then (1 : ℚ) else 0) = 0 :=
      if_neg (fun hc => hc hsum)
    refine List.eq_replicate_iff.mpr ⟨?_, ?_⟩
    · exact flatMap_blocks_length n n _
    · intro b hb
      rcases List.mem_flatMap.mp hb with ⟨i, _, hbi⟩
      rcases List.mem_map.mp hbi with ⟨j, _, hbe⟩
      rw [← hbe, hif]
      ring
  · intro hsum i j hi hj
    unfold gr_f
    rw [flatMap_blocks_getD n _ 0 n i j hi hj]
    rw [if_pos hsum]
    ring

/-- C6 witness: with two singleton sample sets, the fully derived count
vector `[1, 1]` contributes the zero vector. -/
theorem C6_witness :
    (([1, 1] : List ℚ).length = 2 ∧ ([1, 1] : List ℚ).sum = (2 : ℚ)) ∧
    gr_f 2 2 [1, 1] = List.replicate 4 0 :=
  ⟨⟨rfl, by norm_num⟩,
    (C6_fully_derived_guard 2 2 [1, 1] rfl).1 (by norm_num)⟩

/-- C10: the summary function of `c_genotype_relatedness` maps every
constant count vector (all entries equal, in particular the all-zero and
the all-one vector) to the all-zero result vector, since every entry then
equals the mean. -/
theorem C10_constant_vector_zero (sd : ℕ) (idxs : List (ℕ × ℕ)) (c : ℚ)
    (hidx : ∀ p ∈ idxs, p.1 < sd ∧ p.2 < sd) :
    c_genotype_relatedness_f sd idxs (List.replicate sd c) =
      List.replicate idxs.length 0 := by
  have hget : ∀ k, k < sd → (List.replicate sd c).getD k 0 = c := by
    intro k hk
    rw [List.getD_eq_getElem _ _ (by simpa using hk)]
    simp
  rcases Nat.eq_zero_or_pos sd with hsd | hsd
  · subst hsd
    have hnil : idxs = [] := by
      cases idxs with
      | nil => rfl
      | cons p t =>
          have h1 := hidx p (by simp)
          omega
    subst hnil
    rfl
  · have hsum : loopSum sd (List.replicate sd c) = (sd : ℚ) * c := by
      unfold loopSum
      rw [List.map_congr_left (fun k hk => hget k (List.mem_range.mp hk))]
      rw [sum_map_const, List.length_range]
    have hsd' : (sd : ℚ) ≠ 0 := Nat.cast_ne_zero.mpr (by omega)
    have hmean : loopSum sd (List.replicate sd c) / (sd : ℚ) = c := by
      rw [hsum]
      field_simp
    unfold c_genotype_relatedness_f
    refine List.eq_replicate_iff.mpr ⟨by simp, ?_⟩
    intro b hb
    rcases List.mem_map.mp hb with ⟨p, hp, hbe⟩
    rw [← hbe, hmean, hget p.1 (hidx p hp).1, hget p.2 (hidx p hp).2]
    ring

/-- C10 witness: the constant vector `[5, 5, 5]` over three sample sets
yields the zero vector for the index pairs `(0, 2)` and `(1, 1)`. -/
theorem C10_witness :
    (∀ p ∈ [((0 : ℕ), (2 : ℕ)), (1, 1)], p.1 < 3 ∧ p.2 < 3) ∧
    c_genotype_relatedness_f 3 [(0, 2), (1, 1)] (List.replicate 3 5) =
      List.replicate 2 0 :=
  ⟨by decide, C10_constant_vector_zero 3 [(0, 2), (1, 1)] 5 (by decide)⟩

/-- C7: every covariance result matrix is symmetric: a matrix returned by
`naive_tree_covariance` (which writes each pair value to both mirror
positions), the reflection `M + Mᵀ - diag(diag M)` of any matrix, and
`naive_genotype_covariance`; moreover the reflection leaves the computed
upper triangle of the upper-triangular fill unchanged. -/
theorem C7_symmetry (t : CovTree) (M : ℕ → ℕ → ℚ)
    (hM : naive_tree_covariance t = Except.ok M) (N : ℕ → ℕ → ℚ) (n : ℕ)
    (v : List ℚ) (G : List (List ℕ)) (i j : ℕ) :
    M i j = M j i ∧
    reflectUpper N i j = reflectUpper N j i ∧
    (i ≤ j → reflectUpper (assignUpper n v) i j = assignUpper n v i j) ∧
    entry (naive_genotype_covariance n G) i j =
      entry (naive_genotype_covariance n G) j i := by
  refine ⟨?_, reflectUpper_symm N i j, ?_, naive_symm n G i j⟩
  · cases hc : check_cov_tree_inputs t with
    | error e =>
        unfold naive_tree_covariance at hM
        rw [hc] at hM
        exact absurd hM (by simp)
    | ok u =>
        unfold naive_tree_covariance at hM
        rw [hc] at hM
        have hM2 := Except.ok.inj hM
        rw [← hM2]
        exact foldl_covUpdate_symm t (pairsCWR t.samples.length)
          (fun _ _ => (0 : ℚ)) (fun a b => rfl) i j
  · intro hij
    exact reflectUpper_keep _ i j
      (fun a b hba => assignUpper_lower n v a b hba) hij

/-- C7 witness: on the concrete cherry tree the returned matrix is
symmetric at the pair `(0, 1)`. -/
theorem C7_witness :
    naive_tree_covariance exTreeOk = Except.ok exTreeOkMatrix ∧
    exTreeOkMatrix 0 1 = exTreeOkMatrix 1 0 :=
  ⟨rfl, (C7_symmetry exTreeOk exTreeOkMatrix rfl (fun _ _ => 0) 2 [1]
    [[0, 1]] 0 1).1⟩

theorem pairsCWR_bounds (n : ℕ) : ∀ p ∈ pairsCWR n, p.1 < n ∧ p.2 < n := by
  intro p hp
  have h := (mem_pairsCWR n p).mp hp
  exact ⟨lt_of_le_of_lt h.1 h.2, h.2⟩

theorem naive_entry_pair (n : ℕ) (G : List (List ℕ)) (i j : ℕ) (hi : i < n)
    (hj : j < n) :
    (G.map (fun row => cRow row j * cRow row i)).sum =
      entry (naive_genotype_covariance n G) i j := by
  rw [naive_entry n G i j hi hj]
  exact congrArg List.sum
    (congrArg (fun F2 => List.map F2 G) (funext (fun row => mul_comm _ _)))

/-- C1 (amended): for every genotype matrix whose entries are all 0 or 1
(each site biallelic, the only kind the test suite generates, for any
topology: binary or non-binary, one or many trees, internal samples or
not), the genotype-covariance reducer, the sample-count-statistic
reducers (`genotype_relatedness`, and `c_genotype_relatedness` after the
/2 correction and upper-triangle reflection), and the library's native
`genetic_relatedness` pairwise statistic produce exactly the same `n × n`
matrix (so in particular they agree within relative tolerance 1e-7).
On multiallelic genotype values the paths diverge (see the
counterexample). -/
theorem C1_reduction_paths_agree (n : ℕ) (G : List (List ℕ))
    (hlen : ∀ row ∈ G, row.length = n) (h01 : ∀ row ∈ G, ∀ g ∈ row, g ≤ 1)
    (hn : 0 < n) (i j : ℕ) (hi : i < n) (hj : j < n) :
    entry (genotype_relatedness n G) i j =
      entry (naive_genotype_covariance n G) i j ∧
    verify_cov4 n G i j = entry (naive_genotype_covariance n G) i j ∧
    verify_cov3 n G i j = entry (naive_genotype_covariance n G) i j := by
  refine ⟨?_, ?_, ?_⟩
  · rw [genotype_relatedness_entry n G hlen h01 hn i j hi hj,
      naive_entry n G i j hi hj]
  · unfold verify_cov4
    rw [c_relatedness_eq n G hlen h01 hn (pairsCWR n) (pairsCWR_bounds n)]
    rw [reflect_assignUpper_map n _ i j hi hj]
    by_cases hij : i ≤ j
    · rw [if_pos hij]
      exact (naive_entry n G i j hi hj).symm
    · rw [if_neg hij]
      exact naive_entry_pair n G i j hi hj
  · unfold verify_cov3
    rw [ts_relatedness_eq n G hlen h01 hn (pairsCWR n) (pairsCWR_bounds n)]
    rw [List.map_map]
    rw [reflect_assignUpper_map n _ i j hi hj]
    by_cases hij : i ≤ j
    · rw [if_pos hij]
      show 2 * (G.map (fun row => cRow row i * cRow row j)).sum / 2 = _
      rw [naive_entry n G i j hi hj]
      ring
    · rw [if_neg hij]
      show 2 * (G.map (fun row => cRow row j * cRow row i)).sum / 2 = _
      rw [naive_entry_pair n G i j hi hj]
      ring

/-- C1 witness: the four reduction paths coincide on the biallelic
one-site matrix `[[0, 1]]` at entry `(0, 1)`. -/
theorem C1_witness :
    ((0 : ℕ) < 2 ∧ (∀ row ∈ [[(0 : ℕ), 1]], row.length = 2) ∧
      (∀ row ∈ [[(0 : ℕ), 1]], ∀ g ∈ row, g ≤ 1)) ∧
    (entry (genotype_relatedness 2 [[0, 1]]) 0 1 =
        entry (naive_genotype_covariance 2 [[0, 1]]) 0 1 ∧
      verify_cov4 2 [[0, 1]] 0 1 =
        entry (naive_genotype_covariance 2 [[0, 1]]) 0 1 ∧
      verify_cov3 2 [[0, 1]] 0 1 =
        entry (naive_genotype_covariance 2 [[0, 1]]) 0 1) :=
  ⟨⟨by norm_num, by decide, by decide⟩,
    C1_reduction_paths_agree 2 [[0, 1]] (by decide) (by decide) (by norm_num)
      0 1 (by norm_num) (by norm_num)⟩

/-! ### Concrete evaluation of the reduction paths on multiallelic sites -/

theorem cov4_entry_general (n : ℕ) (G : List (List ℕ)) (i j : ℕ)
    (hi : i < n) (hj : j < n) (hij : i ≤ j) :
    verify_cov4 n G i j = (G.map (fun row => ((siteAlleles row).map (fun a =>
      (cnt row a i - cntMean n row a) *
        (cnt row a j - cntMean n row a) / 2)).sum)).sum := by
  unfold verify_cov4
  have hv : c_genotype_relatedness (singletons n) (pairsCWR n) G =
      (pairsCWR n).map (fun p => (G.map (fun row =>
        ((siteAlleles row).map (fun a =>
          ((countVector (singletons n) row a).getD p.1 0 -
              loopSum n (countVector (singletons n) row a) / (n : ℚ)) *
            ((countVector (singletons n) row a).getD p.2 0 -
              loopSum n (countVector (singletons n) row a) / (n : ℚ)) /
            2)).sum)).sum) := by
    unfold c_genotype_relatedness
    rw [singletons_length]
    exact sample_count_stat_map (singletons n) (pairsCWR n)
      (fun x p => (x.getD p.1 0 - loopSum n x / (n : ℚ)) *
        (x.getD p.2 0 - loopSum n x / (n : ℚ)) / 2) G
  rw [hv, reflect_assignUpper_map n _ i j hi hj, if_pos hij]
  refine congrArg List.sum (List.map_congr_left (fun row _ => ?_))
  refine congrArg List.sum (List.map_congr_left (fun a _ => ?_))
  rw [getD_countVector n row a i hi, getD_countVector n row a j hj,
    loopSum_countVector]
  rfl

theorem cov4_value_G8 : verify_cov4 6 [[0, 0, 0, 0, 1, 2]] 4 5 = 1 / 12 := by
  rw [cov4_entry_general 6 [[0, 0, 0, 0, 1, 2]] 4 5 (by norm_num) (by norm_num)
    (by norm_num)]
  have hs0 : cntSum 6 [0, 0, 0, 0, 1, 2] 0 = 4 := by
    show (List.map (cnt [0, 0, 0, 0, 1, 2] 0) (List.range 6)).sum = 4
    rw [show List.map (cnt [0, 0, 0, 0, 1, 2] 0) (List.range 6) =
      [1, 1, 1, 1, 0, 0] from rfl]
    norm_num
  have hs1 : cntSum 6 [0, 0, 0, 0, 1, 2] 1 = 1 := by
    show (List.map (cnt [0, 0, 0, 0, 1, 2] 1) (List.range 6)).sum = 1
    rw [show List.map (cnt [0, 0, 0, 0, 1, 2] 1) (List.range 6) =
      [0, 0, 0, 0, 1, 0] from rfl]
    norm_num
  have hs2 : cntSum 6 [0, 0, 0, 0, 1, 2] 2 = 1 := by
    show (List.map (cnt [0, 0, 0, 0, 1, 2] 2) (List.range 6)).sum = 1
    rw [show List.map (cnt [0, 0, 0, 0, 1, 2] 2) (List.range 6) =
      [0, 0, 0, 0, 0, 1] from rfl]
    norm_num
  simp only [List.map_cons, List.map_nil, List.sum_cons, List.sum_nil]
  rw [show siteAlleles [0, 0, 0, 0, 1, 2] = [0, 1, 2] from rfl]
  simp only [List.map_cons, List.map_nil, List.sum_cons, List.sum_nil]
  rw [show cnt [0, 0, 0, 0, 1, 2] 0 4 = 0 from rfl,
    show cnt [0, 0, 0, 0, 1, 2] 0 5 = 0 from rfl,
    show cnt [0, 0, 0, 0, 1, 2] 1 4 = 1 from rfl,
    show cnt [0, 0, 0, 0, 1, 2] 1 5 = 0 from rfl,
    show cnt [0, 0, 0, 0, 1, 2] 2 4 = 0 from rfl,
    show cnt [0, 0, 0, 0, 1, 2] 2 5 = 1 from rfl]
  unfold cntMean
  rw [hs0, hs1, hs2]
  norm_num

theorem naive_value_G8 :
    entry (naive_genotype_covariance 6 [[0, 0, 0, 0, 1, 2]]) 4 5 = 3 / 4 := by
  rw [naive_entry 6 [[0, 0, 0, 0, 1, 2]] 4 5 (by norm_num) (by norm_num)]
  simp only [List.map_cons, List.map_nil, List.sum_cons, List.sum_nil]
  unfold cRow
  rw [show ([0, 0, 0, 0, 1, 2] : List ℕ).getD 4 0 = 1 from rfl,
    show ([0, 0, 0, 0, 1, 2] : List ℕ).getD 5 0 = 2 from rfl]
  unfold siteMean
  norm_num

theorem cov4_value_G14 : verify_cov4 4 [[0, 0, 1, 2]] 2 3 = -(1 / 16) := by
  rw [cov4_entry_general 4 [[0, 0, 1, 2]] 2 3 (by norm_num) (by norm_num)
    (by norm_num)]
  have hs0 : cntSum 4 [0, 0, 1, 2] 0 = 2 := by
    show (List.map (cnt [0, 0, 1, 2] 0) (List.range 4)).sum = 2
    rw [show List.map (cnt [0, 0, 1, 2] 0) (List.range 4) = [1, 1, 0, 0] from rfl]
    norm_num
  have hs1 : cntSum 4 [0, 0, 1, 2] 1 = 1 := by
    show (List.map (cnt [0, 0, 1, 2] 1) (List.range 4)).sum = 1
    rw [show List.map (cnt [0, 0, 1, 2] 1) (List.range 4) = [0, 0, 1, 0] from rfl]
    norm_num
  have hs2 : cntSum 4 [0, 0, 1, 2] 2 = 1 := by
    show (List.map (cnt [0, 0, 1, 2] 2) (List.range 4)).sum = 1
    rw [show List.map (cnt [0, 0, 1, 2] 2) (List.range 4) = [0, 0, 0, 1] from rfl]
    norm_num
  simp only [List.map_cons, List.map_nil, List.sum_cons, List.sum_nil]
  rw [show siteAlleles [0, 0, 1, 2] = [0, 1, 2] from rfl]
  simp only [List.map_cons, List.map_nil, List.sum_cons, List.sum_nil]
  rw [show cnt [0, 0, 1, 2] 0 2 = 0 from rfl,
    show cnt [0, 0, 1, 2] 0 3 = 0 from rfl,
    show cnt [0, 0, 1, 2] 1 2 = 1 from rfl,
    show cnt [0, 0, 1, 2] 1 3 = 0 from rfl,
    show cnt [0, 0, 1, 2] 2 2 = 0 from rfl,
    show cnt [0, 0, 1, 2] 2 3 = 1 from rfl]
  unfold cntMean
  rw [hs0, hs1, hs2]
  norm_num

theorem naive_value_G14 :
    entry (naive_genotype_covariance 4 [[0, 0, 1, 2]]) 2 3 = 5 / 16 := by
  rw [naive_entry 4 [[0, 0, 1, 2]] 2 3 (by norm_num) (by norm_num)]
  simp only [List.map_cons, List.map_nil, List.sum_cons, List.sum_nil]
  unfold cRow
  rw [show ([0, 0, 1, 2] : List ℕ).getD 2 0 = 1 from rfl,
    show ([0, 0, 1, 2] : List ℕ).getD 3 0 = 2 from rfl]
  unfold siteMean
  norm_num

/-- C1 counterexample: on the valid one-site genotype matrix
`[[0, 0, 1, 2]]` (a multiallelic site, which a valid tree sequence may
contain), the `c_genotype_relatedness` path (after the /2 correction and
upper-triangle reflection) yields `-1/16` at entry `(2, 3)` while the
genotype-covariance reducer yields `5/16`: the paths do not agree within
relative tolerance 1e-7. -/
theorem C1_counterexample :
    verify_cov4 4 [[0, 0, 1, 2]] 2 3 = -(1 / 16) ∧
    entry (naive_genotype_covariance 4 [[0, 0, 1, 2]]) 2 3 = 5 / 16 ∧
    ¬(entry (naive_genotype_covariance 4 [[0, 0, 1, 2]]) 2 3 -
        verify_cov4 4 [[0, 0, 1, 2]] 2 3 ≤
      entry (naive_genotype_covariance 4 [[0, 0, 1, 2]]) 2 3 *
        (1 / 10 ^ 7)) := by
  refine ⟨cov4_value_G14, naive_value_G14, ?_⟩
  rw [cov4_value_G14, naive_value_G14]
  norm_num

/-- C8 (amended): for `G = [[0, 0, 0, 0, 1, 2]]` the genotype covariance
reducer behaves exactly as claimed: the site mean is `1/2`, the centered
vector is `[-1/2, -1/2, -1/2, -1/2, 1/2, 3/2]`, and `C[0][0] = 1/4`,
`C[0][4] = -1/4`, `C[4][5] = 3/4`.  The sample-count-statistic path
(after the /2 correction and triangle reflection) does NOT reproduce this
matrix: at `(4, 5)` it yields `1/12`, far outside tolerance of `3/4`;
its agreement with the covariance reducer holds only for genotype values
0 and 1. -/
theorem C8_concrete_scenario :
    siteMean [0, 0, 0, 0, 1, 2] = 1 / 2 ∧
    (cRow [0, 0, 0, 0, 1, 2] 0 = -(1 / 2) ∧
      cRow [0, 0, 0, 0, 1, 2] 4 = 1 / 2 ∧
      cRow [0, 0, 0, 0, 1, 2] 5 = 3 / 2) ∧
    entry (naive_genotype_covariance 6 [[0, 0, 0, 0, 1, 2]]) 0 0 = 1 / 4 ∧
    entry (naive_genotype_covariance 6 [[0, 0, 0, 0, 1, 2]]) 0 4 = -(1 / 4) ∧
    entry (naive_genotype_covariance 6 [[0, 0, 0, 0, 1, 2]]) 4 5 = 3 / 4 ∧
    verify_cov4 6 [[0, 0, 0, 0, 1, 2]] 4 5 = 1 / 12 := by
  have hmean : siteMean [0, 0, 0, 0, 1, 2] = 1 / 2 := by
    unfold siteMean
    norm_num
  refine ⟨hmean, ⟨?_, ?_, ?_⟩, ?_, ?_, naive_value_G8, cov4_value_G8⟩
  · unfold cRow
    rw [hmean, show ([0, 0, 0, 0, 1, 2] : List ℕ).getD 0 0 = 0 from rfl]
    norm_num
  · unfold cRow
    rw [hmean, show ([0, 0, 0, 0, 1, 2] : List ℕ).getD 4 0 = 1 from rfl]
    norm_num
  · unfold cRow
    rw [hmean, show ([0, 0, 0, 0, 1, 2] : List ℕ).getD 5 0 = 2 from rfl]
    norm_num
  · rw [naive_entry 6 [[0, 0, 0, 0, 1, 2]] 0 0 (by norm_num) (by norm_num)]
    simp only [List.map_cons, List.map_nil, List.sum_cons, List.sum_nil]
    unfold cRow
    rw [hmean, show ([0, 0, 0, 0, 1, 2] : List ℕ).getD 0 0 = 0 from rfl]
    norm_num
  · rw [naive_entry 6 [[0, 0, 0, 0, 1, 2]] 0 4 (by norm_num) (by norm_num)]
    simp only [List.map_cons, List.map_nil, List.sum_cons, List.sum_nil]
    unfold cRow
    rw [hmean, show ([0, 0, 0, 0, 1, 2] : List ℕ).getD 0 0 = 0 from rfl,
      show ([0, 0, 0, 0, 1, 2] : List ℕ).getD 4 0 = 1 from rfl]
    norm_num

/-- C8 counterexample: the sample-count-statistic path does not reproduce
the genotype covariance on `G = [[0, 0, 0, 0, 1, 2]]`: at entry `(4, 5)`
it yields `1/12` against the covariance value `3/4`, far beyond relative
tolerance 1e-7. -/
theorem C8_counterexample :
    verify_cov4 6 [[0, 0, 0, 0, 1, 2]] 4 5 ≠
      entry (naive_genotype_covariance 6 [[0, 0, 0, 0, 1, 2]]) 4 5 ∧
    ¬(entry (naive_genotype_covariance 6 [[0, 0, 0, 0, 1, 2]]) 4 5 -
        verify_cov4 6 [[0, 0, 0, 0, 1, 2]] 4 5 ≤
      entry (naive_genotype_covariance 6 [[0, 0, 0, 0, 1, 2]]) 4 5 *
        (1 / 10 ^ 7)) := by
  rw [cov4_value_G8, naive_value_G8]
  norm_num

end TskitCov
